import Mathlib

/-!
Verification of the posts slice (`src/07_lesson/src/features/posts/postsSlice.js`).

The slice configures a client-side data cache: a normalized entity store with a
sort comparator, response-shaping functions that backfill missing `date` and
`reactions` fields, declarative cache tags (`providesTags` / `invalidatesTags`),
request builders, an optimistic update with rollback for `addReaction`, and
memoized selectors.

The functions written in the slice itself are translated directly.  The engine
pieces the slice plugs into (`createEntityAdapter.setAll`, the query-cache
`updateQueryData` / undo mechanism, tag-driven stale marking) are not part of
this repository's sources; they are modelled from the specification and marked
as such in their doc comments.

Dates are ISO-8601 strings ordered lexicographically (`localeCompare` on
ISO-8601 timestamps of the same format is plain string comparison).  The
external date library (`sub` composed with `toISOString`) is abstracted as a
function `iso : Int → String` from minutes-before-reference to the rendered
string, together with the reference instant `now` in minutes; the rendering is
strictly monotone in the instant, which is carried as a hypothesis where the
ordering of synthesized dates matters.
-/

namespace PostsApi

/-- The five reaction counters (source lines 22-28, 49-55, 74-80). -/
structure Reactions where
  thumbsUp : Nat
  wow : Nat
  heart : Nat
  rocket : Nat
  coffee : Nat
deriving DecidableEq, Repr

/-- The all-zero reactions object the slice constructs in three places. -/
def zeroReactions : Reactions :=
  { thumbsUp := 0, wow := 0, heart := 0, rocket := 0, coffee := 0 }

/-- A record as it arrives from the transport: `date` and `reactions` may be
absent (`none`).  Other fields of the JSON record are `id`, `userId`, `title`
and `body`. -/
structure RawPost where
  id : Nat
  userId : Int
  title : String
  body : String
  date : Option String
  reactions : Option Reactions
deriving DecidableEq, Repr

/-- A record after the shaping step: `date` and `reactions` are present. -/
structure Post where
  id : Nat
  userId : Int
  title : String
  body : String
  date : String
  reactions : Reactions
deriving DecidableEq, Repr

/-- JavaScript falsiness of an optional string: `!post?.date` is true when the
field is absent or the empty string. -/
def strFalsy : Option String → Bool
  | none => true
  | some s => s.isEmpty

/-- A raw record is treated as missing its date when `!post?.date` holds. -/
def dateMissing (post : RawPost) : Bool := strFalsy post.date

/-- The shaping loop of `transformResponse` (source lines 19-30 and 46-57):
walks the response, assigning `sub(new Date(), { minutes: min++ }).toISOString()`
(here `iso (now - min)`) to records with a falsy `date`, and the all-zero
reactions object to records with an absent `reactions`; `min` starts at 1 and
is incremented only when a date is synthesized. -/
def backfill (iso : Int → String) (now : Int) : Nat → List RawPost → List Post
  | _, [] => []
  | min, post :: rest =>
    { id := post.id, userId := post.userId, title := post.title, body := post.body,
      date := if dateMissing post then iso (now - min) else post.date.getD "",
      reactions := post.reactions.getD zeroReactions } ::
      backfill iso now (if dateMissing post then min + 1 else min) rest

/-- Number of records of the list with a falsy `date`. -/
def countMissing (raws : List RawPost) : Nat := (raws.filter dateMissing).length

/-- The entity-adapter sort comparator (source line 9):
`(a, b) => b.date.localeCompare(a.date)` keeps `a` before `b` exactly when the
comparator is non-positive, i.e. when `b.date ≤ a.date`; expressed as the
boolean "less-or-equal" the stable sort consumes. -/
def sortComparerLE (a b : Post) : Bool := decide (b.date ≤ a.date)

/-- A normalized entity-store snapshot: `ids` in display order, `entities` as
an association list from id to record. -/
structure EntityState where
  ids : List Nat
  entities : List (Nat × Post)
deriving DecidableEq, Repr

/-- `postsAdapter.getInitialState()` (source line 12): the empty snapshot. -/
def initialState : EntityState := { ids := [], entities := [] }

/-- Modelled from the spec: `createEntityAdapter(...).setAll` replaces
`ids`/`entities` wholesale, re-deriving `ids` by a stable sort under the
adapter's comparator (spec 4.1; input records are already validated upstream,
so no dedup step is modelled).  The previous snapshot is discarded. -/
def setAll (_s : EntityState) (records : List Post) : EntityState :=
  { ids := (records.mergeSort sortComparerLE).map Post.id,
    entities := records.map (fun p => (p.id, p)) }

/-- `transformResponse` of both `getPosts` and `getPostsByUserId` (source
lines 18-31 and 45-58; the two bodies are identical): shape the response, then
`postsAdapter.setAll(initialState, loadedPosts)`. -/
def transformResponse (iso : Int → String) (now : Int)
    (responseData : List RawPost) : EntityState :=
  setAll initialState (backfill iso now 1 responseData)

/-- The records of a snapshot read back in `ids` order. -/
def postsInOrder (s : EntityState) : List Post :=
  s.ids.filterMap (fun i => s.entities.lookup i)

/-- A cache tag id: either the `"LIST"` sentinel or a concrete record id. -/
inductive TagId where
  | listSentinel : TagId
  | entity (id : Nat) : TagId
deriving DecidableEq, Repr

/-- A cache tag `{ type, id }` (source uses `type: 'Post'` throughout). -/
structure Tag where
  type : String
  id : TagId
deriving DecidableEq, Repr

/-- `getPosts.providesTags` (source lines 38-41):
`[{ type: 'Post', id: "LIST" }, ...result.ids.map(id => ({ type: 'Post', id }))]`. -/
def getPostsProvidesTags (result : EntityState) : List Tag :=
  { type := "Post", id := TagId.listSentinel } ::
    result.ids.map (fun i => { type := "Post", id := TagId.entity i })

/-- `getPostsByUserId.providesTags` (source lines 62-64):
`[...result.ids.map(id => ({ type: 'Post', id }))]`. -/
def getPostsByUserIdProvidesTags (result : EntityState) : List Tag :=
  result.ids.map (fun i => { type := "Post", id := TagId.entity i })

/-- The argument of `addNewPost` as it comes from the form: `userId` is still a
string, to be coerced by `Number(...)`. -/
structure NewPostArg where
  title : String
  body : String
  userId : String
deriving DecidableEq, Repr

/-- The request body built by `addNewPost.query`. -/
structure NewPostBody where
  title : String
  body : String
  userId : Int
  date : String
  reactions : Reactions
deriving DecidableEq, Repr

/-- A request descriptor `{ url, method, body }`. -/
structure RequestDescriptor (β : Type) where
  url : String
  method : String
  body : β
deriving DecidableEq, Repr

/-- `addNewPost.query` (source lines 67-82): POST to `/posts` with the argument
spread into the body, `userId` coerced by `Number` (abstracted as `toNumber`),
`date` set to the current ISO timestamp (abstracted as `nowIso`), and zeroed
reactions. -/
def addNewPostQuery (toNumber : String → Int) (nowIso : String)
    (initialPost : NewPostArg) : RequestDescriptor NewPostBody :=
  { url := "/posts", method := "POST",
    body := { title := initialPost.title, body := initialPost.body,
              userId := toNumber initialPost.userId,
              date := nowIso, reactions := zeroReactions } }

/-- `addNewPost.invalidatesTags` (source lines 88-90). -/
def addNewPostInvalidatesTags : List Tag :=
  [{ type := "Post", id := TagId.listSentinel }]

/-- The argument of `updatePost`: an existing post (only `id` matters for
invalidation). -/
structure UpdatePostArg where
  id : Nat
  title : String
  body : String
  userId : Int
deriving DecidableEq, Repr

/-- `updatePost.invalidatesTags` (source lines 101-103):
`[{ type: 'Post', id: arg.id }]`. -/
def updatePostInvalidatesTags (arg : UpdatePostArg) : List Tag :=
  [{ type := "Post", id := TagId.entity arg.id }]

/-- The argument of `deletePost`: `{ id }`. -/
structure DeletePostArg where
  id : Nat
deriving DecidableEq, Repr

/-- `deletePost.invalidatesTags` (source lines 111-113):
`[{ type: 'Post', id: arg.id }]`. -/
def deletePostInvalidatesTags (arg : DeletePostArg) : List Tag :=
  [{ type := "Post", id := TagId.entity arg.id }]

/-- `addReaction` declares no `invalidatesTags` (source lines 115-139), so its
invalidation set is empty. -/
def addReactionInvalidatesTags : List Tag := []

/-- A query-cache key: endpoint name and serialized argument. -/
structure QueryKey where
  endpoint : String
  argKey : String
deriving DecidableEq, Repr

/-- A query-cache entry: its key, its `data` snapshot, the tags it provides,
and its stale flag. -/
structure CacheEntry where
  key : QueryKey
  data : EntityState
  tags : List Tag
  stale : Bool
deriving DecidableEq, Repr

/-- The query cache as a list of entries. -/
abbrev Cache := List CacheEntry

/-- The cache key of the `getPosts` entry targeted by
`updateQueryData('getPosts', undefined, ...)` (source line 127). -/
def getPostsKey : QueryKey := { endpoint := "getPosts", argKey := "undefined" }

/-- The `data` of the entry stored under a key, if any. -/
def getData (c : Cache) (k : QueryKey) : Option EntityState :=
  (c.find? (fun e => decide (e.key = k))).map CacheEntry.data

/-- Modelled from the spec: `util.updateQueryData` applies the draft function
to the `data` of the entry under the key (spec 4.5: the forward transform of
the target entry's data, applied synchronously before the transport settles). -/
def updateQueryData (k : QueryKey) (f : EntityState → EntityState)
    (c : Cache) : Cache :=
  c.map (fun e => if e.key = k then { e with data := f e.data } else e)

/-- Overwrite the `data` of the entry under a key. -/
def setData (k : QueryKey) (d : EntityState) (c : Cache) : Cache :=
  c.map (fun e => if e.key = k then { e with data := d } else e)

/-- Modelled from the spec: `patchResult.undo` restores the entry's `data` to
the retained pre-patch snapshot (spec 4.5: exact symmetric undo by snapshot
swap); when no entry was patched there is nothing to restore. -/
def undoPatch (k : QueryKey) (orig : Option EntityState) (c : Cache) : Cache :=
  match orig with
  | some d => setData k d c
  | none => c

/-- The draft function of `addReaction.onQueryStarted` (source lines 127-131):
look up `draft.entities[postId]`; if present, set its `reactions` to the
argument's reactions object; otherwise do nothing. -/
def addReactionPatch (postId : Nat) (reactions : Reactions)
    (draft : EntityState) : EntityState :=
  match draft.entities.lookup postId with
  | some post =>
    { draft with
      entities := draft.entities.map
        (fun kv => if kv.1 = postId then (kv.1, { post with reactions := reactions }) else kv) }
  | none => draft

/-- The cache after the optimistic patch of `addReaction` is dispatched,
before the transport settles. -/
def addReactionInFlight (postId : Nat) (reactions : Reactions) (c : Cache) : Cache :=
  updateQueryData getPostsKey (addReactionPatch postId reactions) c

/-- `addReaction.onQueryStarted` (source lines 123-138) over a transport
outcome: dispatch the optimistic patch, retaining the pre-patch snapshot; if
the call is fulfilled keep the patch, otherwise `patchResult.undo()`. -/
def addReactionOnQueryStarted (postId : Nat) (reactions : Reactions)
    (fulfilled : Bool) (c : Cache) : Cache :=
  let orig := getData c getPostsKey
  let patched := addReactionInFlight postId reactions c
  if fulfilled then patched else undoPatch getPostsKey orig patched

/-- Modelled from the spec: the mutation executor marks stale every entry whose
provided tags intersect the invalidation set (spec 4.3 `resolve` + 4.4). -/
def markStale (invTags : List Tag) (c : Cache) : Cache :=
  c.map (fun e =>
    if e.tags.any (fun t => decide (t ∈ invTags)) then { e with stale := true } else e)

/-- The snapshot the selectors read:
`state => selectPostsData(state) ?? initialState` (source line 174), with the
query entry's `data` abstracted as an `Option EntityState`. -/
def selectorsInput (queryData : Option EntityState) : EntityState :=
  queryData.getD initialState

/-- `selectAll` from `postsAdapter.getSelectors` (source lines 169-174): the
records in `ids` order. -/
def selectAllPosts (queryData : Option EntityState) : List Post :=
  postsInOrder (selectorsInput queryData)

/-- `selectById` from `postsAdapter.getSelectors`. -/
def selectPostById (queryData : Option EntityState) (i : Nat) : Option Post :=
  (selectorsInput queryData).entities.lookup i

/-- `selectIds` from `postsAdapter.getSelectors`. -/
def selectPostIds (queryData : Option EntityState) : List Nat :=
  (selectorsInput queryData).ids

/-- The dates synthesized by the shaping step, in insertion order: for each
record with a falsy `date`, the date assigned to it by `backfill`. -/
def synthesizedDates (iso : Int → String) (now : Int)
    (raws : List RawPost) : List String :=
  ((backfill iso now 1 raws).zip raws).filterMap
    (fun pr => if dateMissing pr.2 then some pr.1.date else none)

/-- A concrete strictly monotone rendering of instants as strings, standing in
for the ISO-8601 rendering in witnesses: negative instants map to blocks of
`'a'`s closed by a `'b'` (longer blocks are lexicographically smaller), and
non-negative instants map to blocks of `'b'`s (longer blocks are larger). -/
def isoRender (t : Int) : String :=
  if t < 0 then String.mk (List.replicate (-t).toNat 'a' ++ ['b'])
  else String.mk ('b' :: List.replicate t.toNat 'b')

/-! ### Concrete fixtures used to instantiate theorems with hypotheses -/

/-- A concrete shaped post. -/
def postFx : Post :=
  { id := 1, userId := 7, title := "t", body := "tb",
    date := "2023-01-02T00:00:00.000Z", reactions := zeroReactions }

/-- A concrete snapshot holding `postFx`. -/
def dataFx : EntityState := { ids := [1], entities := [(1, postFx)] }

/-- A concrete `getPosts` cache entry over `dataFx`. -/
def entryFx : CacheEntry :=
  { key := getPostsKey, data := dataFx, tags := getPostsProvidesTags dataFx,
    stale := false }

/-- A concrete cache holding only `entryFx`. -/
def cacheFx : Cache := [entryFx]

/-- A concrete shaped post with id 5, for the `deletePost` scenario. -/
def postFx5 : Post :=
  { id := 5, userId := 2, title := "u", body := "ub",
    date := "2023-03-04T00:00:00.000Z", reactions := zeroReactions }

/-- A concrete snapshot holding `postFx5`. -/
def dataFx5 : EntityState := { ids := [5], entities := [(5, postFx5)] }

/-- A concrete cache entry providing the tag `{Post, 5}`. -/
def entryFx5 : CacheEntry :=
  { key := { endpoint := "getPostsByUserId", argKey := "2" }, data := dataFx5,
    tags := getPostsByUserIdProvidesTags dataFx5, stale := false }

/-- A concrete raw response: one record missing both fields, one complete
record, another record missing both fields. -/
def rawsFx : List RawPost :=
  [{ id := 1, userId := 7, title := "t1", body := "b1", date := none, reactions := none },
   { id := 2, userId := 7, title := "t2", body := "b2",
     date := some "2024-01-01T00:00:00.000Z", reactions := some ⟨1, 2, 3, 4, 5⟩ },
   { id := 3, userId := 8, title := "t3", body := "b3", date := none, reactions := none }]

/-! ### Helper lemmas -/

theorem backfill_map_id (iso : Int → String) (now : Int) (min : Nat)
    (raws : List RawPost) :
    (backfill iso now min raws).map Post.id = raws.map RawPost.id := by
  induction raws generalizing min with
  | nil => rfl
  | cons post rest ih => simp [backfill, ih]

theorem backfill_length (iso : Int → String) (now : Int) (min : Nat)
    (raws : List RawPost) :
    (backfill iso now min raws).length = raws.length := by
  have h := congrArg List.length (backfill_map_id iso now min raws)
  simpa using h

theorem lookup_toEntities {records : List Post}
    (h : (records.map Post.id).Nodup) {p : Post} (hp : p ∈ records) :
    (records.map (fun q => (q.id, q))).lookup p.id = some p := by
  induction records with
  | nil => cases hp
  | cons q rest ih =>
    simp only [List.map_cons, List.nodup_cons] at h
    rcases List.mem_cons.mp hp with rfl | hmem
    · simp [List.lookup]
    · have hne : (p.id == q.id) = false := by
        simp only [beq_eq_false_iff_ne, ne_eq]
        intro he
        exact h.1 (he ▸ List.mem_map_of_mem Post.id hmem)
      simp only [List.map_cons, List.lookup, hne]
      exact ih h.2 hmem

theorem filterMap_eq_self_of_mem {α : Type} {f : α → Option α} {l : List α}
    (h : ∀ a ∈ l, f a = some a) : l.filterMap f = l := by
  induction l with
  | nil => rfl
  | cons a rest ih =>
    rw [List.filterMap_cons, h a (List.mem_cons_self a rest),
      ih (fun b hb => h b (List.mem_cons_of_mem a hb))]

theorem postsInOrder_setAll (s : EntityState) {records : List Post}
    (h : (records.map Post.id).Nodup) :
    postsInOrder (setAll s records) = records.mergeSort sortComparerLE := by
  unfold postsInOrder setAll
  rw [List.filterMap_map]
  apply filterMap_eq_self_of_mem
  intro p hp
  exact lookup_toEntities h (List.mem_mergeSort.mp hp)

theorem sortComparerLE_trans (a b c : Post) :
    sortComparerLE a b → sortComparerLE b c → sortComparerLE a c := by
  simp only [sortComparerLE, decide_eq_true_eq]
  exact fun hab hbc => le_trans hbc hab

theorem sortComparerLE_total (a b : Post) :
    sortComparerLE a b || sortComparerLE b a := by
  simp only [sortComparerLE, Bool.or_eq_true, decide_eq_true_eq]
  exact le_total b.date a.date

theorem getData_cons (e : CacheEntry) (rest : Cache) (k : QueryKey) :
    getData (e :: rest) k = if e.key = k then some e.data else getData rest k := by
  by_cases h : e.key = k
  · simp [getData, List.find?_cons, h]
  · simp [getData, List.find?_cons, h]

theorem updateQueryData_cons (k : QueryKey) (f : EntityState → EntityState)
    (e : CacheEntry) (rest : Cache) :
    updateQueryData k f (e :: rest) =
      (if e.key = k then { e with data := f e.data } else e) ::
        updateQueryData k f rest := rfl

theorem getData_updateQueryData (k : QueryKey) (f : EntityState → EntityState)
    (c : Cache) : getData (updateQueryData k f c) k = (getData c k).map f := by
  induction c with
  | nil => rfl
  | cons e rest ih =>
    rw [updateQueryData_cons]
    by_cases h : e.key = k
    · rw [if_pos h, getData_cons, getData_cons, if_pos h]
      simp [h]
    · rw [if_neg h, getData_cons, getData_cons, if_neg h, if_neg h, ih]

theorem setData_eq_update (k : QueryKey) (d : EntityState) (c : Cache) :
    setData k d c = updateQueryData k (fun _ => d) c := rfl

theorem getData_setData (k : QueryKey) (d : EntityState) (c : Cache) :
    getData (setData k d c) k = (getData c k).map (fun _ => d) := by
  rw [setData_eq_update, getData_updateQueryData]

theorem getData_updateQueryData_ne {k k' : QueryKey} (hne : k' ≠ k)
    (f : EntityState → EntityState) (c : Cache) :
    getData (updateQueryData k f c) k' = getData c k' := by
  induction c with
  | nil => rfl
  | cons e rest ih =>
    rw [updateQueryData_cons]
    have hkey : (if e.key = k then { e with data := f e.data } else e).key = e.key := by
      by_cases h : e.key = k <;> simp [h]
    rw [getData_cons, getData_cons, hkey]
    by_cases hk' : e.key = k'
    · have hek : ¬e.key = k := fun h => hne (hk'.symm.trans h)
      rw [if_pos hk', if_pos hk', if_neg hek]
    · rw [if_neg hk', if_neg hk', ih]

theorem lookup_map_update_self (v : Post) (pid : Nat) (p : Post) :
    ∀ (l : List (Nat × Post)), l.lookup pid = some p →
      (l.map (fun kv => if kv.1 = pid then (kv.1, v) else kv)).lookup pid = some v := by
  intro l
  induction l with
  | nil => intro h; cases h
  | cons kv rest ih =>
    obtain ⟨k1, v1⟩ := kv
    intro h
    by_cases hk : k1 = pid
    · subst hk
      simp [List.lookup_cons]
    · have hb : (pid == k1) = false := by
        simp only [beq_eq_false_iff_ne, ne_eq]
        exact fun he => hk he.symm
      simp only [List.lookup_cons, hb] at h
      simp only [List.map_cons]
      simp [hk, List.lookup_cons, hb]
      exact ih h

theorem lookup_map_update_ne (v : Post) (pid q : Nat) (hne : q ≠ pid) :
    ∀ (l : List (Nat × Post)),
      (l.map (fun kv => if kv.1 = pid then (kv.1, v) else kv)).lookup q = l.lookup q := by
  intro l
  induction l with
  | nil => rfl
  | cons kv rest ih =>
    obtain ⟨k1, v1⟩ := kv
    by_cases hk : k1 = pid
    · subst hk
      have hb : (q == k1) = false := by
        simp only [beq_eq_false_iff_ne, ne_eq]
        exact hne
      simp [List.lookup_cons, hb, ih]
    · by_cases hq : k1 = q
      · subst hq
        simp [hk, List.lookup_cons]
      · have hb : (q == k1) = false := by
          simp only [beq_eq_false_iff_ne, ne_eq]
          exact fun he => hq he.symm
        simp [hk, List.lookup_cons, hb, ih]

theorem markStale_cons (invTags : List Tag) (e : CacheEntry) (rest : Cache) :
    markStale invTags (e :: rest) =
      (if e.tags.any (fun t => decide (t ∈ invTags)) then { e with stale := true } else e) ::
        markStale invTags rest := rfl

theorem markStale_empty (c : Cache) : markStale [] c = c := by
  induction c with
  | nil => rfl
  | cons e rest ih =>
    rw [markStale_cons, ih]
    have h : (e.tags.any (fun t => decide (t ∈ ([] : List Tag)))) = false := by
      simp
    rw [h]
    simp

theorem markStale_mem {c : Cache} {e : CacheEntry} (he : e ∈ c) {invTags : List Tag}
    {t : Tag} (ht : t ∈ e.tags) (hinv : t ∈ invTags) :
    { e with stale := true } ∈ markStale invTags c := by
  have hcond : (e.tags.any (fun u => decide (u ∈ invTags))) = true := by
    simp only [List.any_eq_true]
    exact ⟨t, ht, by simpa using hinv⟩
  have hmem := List.mem_map_of_mem
    (fun e' => if e'.tags.any (fun u => decide (u ∈ invTags)) then { e' with stale := true } else e') he
  simpa only [hcond, if_true] using hmem

theorem backfill_getElem (iso : Int → String) (now : Int) :
    ∀ (min k : Nat) (raws : List RawPost) (raw : RawPost), raws[k]? = some raw →
      (backfill iso now min raws)[k]? = some
        { id := raw.id, userId := raw.userId, title := raw.title, body := raw.body,
          date := if dateMissing raw then
              iso (now - (min + countMissing (List.take k raws)))
            else raw.date.getD "",
          reactions := raw.reactions.getD zeroReactions } := by
  intro min k raws
  induction raws generalizing min k with
  | nil => intro raw h; simp at h
  | cons r rest ih =>
    intro raw h
    cases k with
    | zero =>
      simp only [List.getElem?_cons_zero, Option.some.injEq] at h
      subst h
      rw [show backfill iso now min (r :: rest) =
        { id := r.id, userId := r.userId, title := r.title, body := r.body,
          date := if dateMissing r then iso (now - min) else r.date.getD "",
          reactions := r.reactions.getD zeroReactions } ::
          backfill iso now (if dateMissing r then min + 1 else min) rest from rfl,
        List.getElem?_cons_zero]
      simp [countMissing]
    | succ k =>
      simp only [List.getElem?_cons_succ] at h
      rw [show backfill iso now min (r :: rest) =
        { id := r.id, userId := r.userId, title := r.title, body := r.body,
          date := if dateMissing r then iso (now - min) else r.date.getD "",
          reactions := r.reactions.getD zeroReactions } ::
          backfill iso now (if dateMissing r then min + 1 else min) rest from rfl,
        List.getElem?_cons_succ, ih (if dateMissing r then min + 1 else min) k raw h]
      have harg : ((if dateMissing r then min + 1 else min) +
          countMissing (List.take k rest) : Nat)
          = min + countMissing (List.take (k + 1) (r :: rest)) := by
        rw [List.take_succ_cons]
        cases hm : dateMissing r
        · simp [countMissing, List.filter_cons, hm]
        · simp [countMissing, List.filter_cons, hm]
          omega
      have hargInt : (((if dateMissing r then min + 1 else min : Nat) : Int) +
          (countMissing (List.take k rest) : Int)) =
          ((min : Int) + (countMissing (List.take (k + 1) (r :: rest)) : Int)) := by
        omega
      rw [hargInt]

theorem backfill_zip_synth (iso : Int → String) (now : Int) :
    ∀ (min : Nat) (raws : List RawPost),
      ((backfill iso now min raws).zip raws).filterMap
        (fun pr => if dateMissing pr.2 then some pr.1.date else none) =
      (List.range (countMissing raws)).map
        (fun i : Nat => iso (now - ((min : Int) + (i : Int)))) := by
  intro min raws
  induction raws generalizing min with
  | nil => rfl
  | cons r rest ih =>
    rw [show backfill iso now min (r :: rest) =
      { id := r.id, userId := r.userId, title := r.title, body := r.body,
        date := if dateMissing r then iso (now - min) else r.date.getD "",
        reactions := r.reactions.getD zeroReactions } ::
        backfill iso now (if dateMissing r then min + 1 else min) rest from rfl,
      List.zip_cons_cons, List.filterMap_cons]
    cases hm : dateMissing r with
    | false =>
      simp only [hm, Bool.false_eq_true, if_false]
      rw [ih min]
      have hcm : countMissing (r :: rest) = countMissing rest := by
        simp [countMissing, List.filter_cons, hm]
      rw [hcm]
    | true =>
      simp only [hm, if_true]
      rw [ih (min + 1)]
      have hcm : countMissing (r :: rest) = countMissing rest + 1 := by
        simp [countMissing, List.filter_cons, hm]
      rw [hcm, List.range_succ_eq_map]
      rw [List.map_cons, List.map_map]
      refine congrArg₂ List.cons ?_ ?_
      · norm_num
      · apply List.map_congr_left
        intro i hi
        simp only [Function.comp_apply]
        congr 1
        push_cast
        ring

theorem lex_rep_b : ∀ (n m : Nat), n < m →
    List.Lex (· < ·) (List.replicate n 'b') (List.replicate m 'b') := by
  intro n
  induction n with
  | zero =>
    intro m hm
    cases m with
    | zero => omega
    | succ m => exact List.Lex.nil
  | succ n ih =>
    intro m hm
    cases m with
    | zero => omega
    | succ m =>
      rw [List.replicate_succ, List.replicate_succ]
      exact List.Lex.cons (ih m (by omega))

theorem lex_rep_a : ∀ (m2 m1 : Nat), m2 < m1 →
    List.Lex (· < ·) (List.replicate m1 'a' ++ ['b'])
      (List.replicate m2 'a' ++ ['b']) := by
  intro m2
  induction m2 with
  | zero =>
    intro m1 hm
    cases m1 with
    | zero => omega
    | succ m1 =>
      rw [List.replicate_succ]
      simp only [List.nil_append, List.replicate, List.cons_append]
      exact List.Lex.rel (by decide)
  | succ m2 ih =>
    intro m1 hm
    cases m1 with
    | zero => omega
    | succ m1 =>
      rw [List.replicate_succ, List.replicate_succ]
      simp only [List.cons_append]
      exact List.Lex.cons (ih m1 (by omega))

theorem lex_a_b (m n : Nat) (hm : 0 < m) :
    List.Lex (· < ·) (List.replicate m 'a' ++ ['b'])
      ('b' :: List.replicate n 'b') := by
  cases m with
  | zero => omega
  | succ m =>
    rw [List.replicate_succ]
    simp only [List.cons_append]
    exact List.Lex.rel (by decide)

theorem isoRender_strictMono : StrictMono isoRender := by
  intro t1 t2 h
  rw [String.lt_iff_toList_lt]
  unfold isoRender
  by_cases h1 : t1 < 0 <;> by_cases h2 : t2 < 0
  · rw [if_pos h1, if_pos h2]
    show List.Lex (· < ·) (List.replicate (-t1).toNat 'a' ++ ['b'])
      (List.replicate (-t2).toNat 'a' ++ ['b'])
    apply lex_rep_a
    omega
  · rw [if_pos h1, if_neg h2]
    show List.Lex (· < ·) (List.replicate (-t1).toNat 'a' ++ ['b'])
      ('b' :: List.replicate t2.toNat 'b')
    apply lex_a_b
    omega
  · omega
  · rw [if_neg h1, if_neg h2]
    show List.Lex (· < ·) ('b' :: List.replicate t1.toNat 'b')
      ('b' :: List.replicate t2.toNat 'b')
    exact List.Lex.cons (lex_rep_b _ _ (by omega))

/-! ### Claims -/

/-- C7: `addNewPost`'s request builder is a pure function of the argument
returning path `/posts`, method `POST`, and a body carrying the argument's
fields with `userId` numerically coerced, a current ISO-8601 `date`, and
all-zero `reactions`. -/
theorem addNewPost_request_builder (toNumber : String → Int) (nowIso : String)
    (initialPost : NewPostArg) :
    (addNewPostQuery toNumber nowIso initialPost).url = "/posts" ∧
    (addNewPostQuery toNumber nowIso initialPost).method = "POST" ∧
    (addNewPostQuery toNumber nowIso initialPost).body =
      { title := initialPost.title, body := initialPost.body,
        userId := toNumber initialPost.userId, date := nowIso,
        reactions := zeroReactions } :=
  ⟨rfl, rfl, rfl⟩

/-- C8: the derived selectors are pure functions of the query entry's data
snapshot; on an absent (`none`) snapshot they fall back to the stable empty
initial state and return its defaults instead of throwing. -/
theorem selectors_safe_defaults :
    (selectAllPosts none = [] ∧ selectPostIds none = [] ∧
      ∀ i : Nat, selectPostById none i = none) ∧
    (∀ d : EntityState, selectAllPosts (some d) = postsInOrder d ∧
      selectPostIds (some d) = d.ids ∧
      ∀ i : Nat, selectPostById (some d) i = d.entities.lookup i) :=
  ⟨⟨rfl, rfl, fun _ => rfl⟩, fun _ => ⟨rfl, rfl, fun _ => rfl⟩⟩

/-- C9: when `postId` is not a key of the snapshot's entities, the optimistic
update function of `addReaction` is a no-op: the `if (post)` guard makes the
patch total and the snapshot is left unchanged. -/
theorem addReaction_patch_noop (postId : Nat) (reactions : Reactions)
    (d : EntityState) (habs : d.entities.lookup postId = none) :
    addReactionPatch postId reactions d = d := by
  unfold addReactionPatch
  rw [habs]

/-- Witness for C9 at a concrete absent id. -/
theorem addReaction_patch_noop_witness :
    dataFx.entities.lookup 2 = none ∧
      addReactionPatch 2 zeroReactions dataFx = dataFx :=
  ⟨rfl, addReaction_patch_noop 2 zeroReactions dataFx rfl⟩

/-- C6: on success, `deletePost` (and likewise `updatePost`) invalidates
exactly `{Post, arg.id}`, and every cache entry providing that tag is marked
stale. -/
theorem deletePost_updatePost_invalidation (uarg : UpdatePostArg)
    (darg : DeletePostArg) (c : Cache) (e : CacheEntry) (hmem : e ∈ c)
    (htag : ({ type := "Post", id := TagId.entity darg.id } : Tag) ∈ e.tags) :
    deletePostInvalidatesTags darg = [{ type := "Post", id := TagId.entity darg.id }] ∧
    updatePostInvalidatesTags uarg = [{ type := "Post", id := TagId.entity uarg.id }] ∧
    { e with stale := true } ∈ markStale (deletePostInvalidatesTags darg) c :=
  ⟨rfl, rfl, markStale_mem hmem htag (List.mem_cons_self _ _)⟩

/-- Witness for C6: `deletePost` with `{id: 5}` marks stale a cached entry
providing `{Post, 5}`. -/
theorem deletePost_updatePost_invalidation_witness :
    entryFx5 ∈ ([entryFx5] : Cache) ∧
    ({ type := "Post", id := TagId.entity 5 } : Tag) ∈ entryFx5.tags ∧
    { entryFx5 with stale := true } ∈
      markStale (deletePostInvalidatesTags { id := 5 }) [entryFx5] := by
  refine ⟨List.mem_cons_self _ _, by decide, ?_⟩
  exact (deletePost_updatePost_invalidation
    { id := 5, title := "u", body := "ub", userId := 2 } { id := 5 }
    [entryFx5] entryFx5 (List.mem_cons_self _ _) (by decide)).2.2

/-- C4: `addNewPost` declares exactly the `{Post, "LIST"}` invalidation tag;
every successful `getPosts` result provides `{Post, "LIST"}` together with
`{Post, id}` for each id of the result, so the `getPosts` entry is marked
stale by a successful `addNewPost`. -/
theorem addNewPost_invalidates_getPosts (res : EntityState) (c : Cache)
    (e : CacheEntry) (hmem : e ∈ c) (htags : e.tags = getPostsProvidesTags res) :
    addNewPostInvalidatesTags = [{ type := "Post", id := TagId.listSentinel }] ∧
    ({ type := "Post", id := TagId.listSentinel } : Tag) ∈ getPostsProvidesTags res ∧
    (∀ i, i ∈ res.ids →
      ({ type := "Post", id := TagId.entity i } : Tag) ∈ getPostsProvidesTags res) ∧
    { e with stale := true } ∈ markStale addNewPostInvalidatesTags c := by
  refine ⟨rfl, List.mem_cons_self _ _, ?_, ?_⟩
  · intro i hi
    exact List.mem_cons_of_mem _ (List.mem_map_of_mem _ hi)
  · apply markStale_mem hmem ?_ (List.mem_cons_self _ _)
    rw [htags]
    exact List.mem_cons_self _ _

/-- Witness for C4 at a concrete cache holding a `getPosts` entry. -/
theorem addNewPost_invalidates_getPosts_witness :
    entryFx ∈ cacheFx ∧ entryFx.tags = getPostsProvidesTags dataFx ∧
    { entryFx with stale := true } ∈ markStale addNewPostInvalidatesTags cacheFx :=
  ⟨List.mem_cons_self _ _, rfl,
    (addNewPost_invalidates_getPosts dataFx cacheFx entryFx
      (List.mem_cons_self _ _) rfl).2.2.2⟩

/-- C5: a successful `getPostsByUserId` result provides exactly one `{Post, id}`
tag per result id and no `{Post, "LIST"}` tag, and the snapshot has as many ids
as the transport returned records. -/
theorem getPostsByUserId_tags_and_count (iso : Int → String) (now : Int)
    (raws : List RawPost) :
    getPostsByUserIdProvidesTags (transformResponse iso now raws) =
      (transformResponse iso now raws).ids.map
        (fun i => { type := "Post", id := TagId.entity i }) ∧
    ({ type := "Post", id := TagId.listSentinel } : Tag) ∉
      getPostsByUserIdProvidesTags (transformResponse iso now raws) ∧
    (transformResponse iso now raws).ids.length = raws.length := by
  refine ⟨rfl, ?_, ?_⟩
  · intro hmem
    rcases List.mem_map.mp hmem with ⟨i, -, hi⟩
    simp only [Tag.mk.injEq] at hi
    cases hi.2
  · simp [transformResponse, setAll, List.length_map, List.length_mergeSort,
      backfill_length]

/-- Witness for C5 at a concrete response. -/
theorem getPostsByUserId_tags_and_count_witness :
    ({ type := "Post", id := TagId.listSentinel } : Tag) ∉
      getPostsByUserIdProvidesTags (transformResponse isoRender 0 rawsFx) ∧
    (transformResponse isoRender 0 rawsFx).ids.length = rawsFx.length :=
  ⟨(getPostsByUserId_tags_and_count isoRender 0 rawsFx).2.1,
    (getPostsByUserId_tags_and_count isoRender 0 rawsFx).2.2⟩

/-- C10: `addReaction` declares no invalidation tags, so no entry is marked
stale for any transport outcome, and the whole `onQueryStarted` flow leaves
every entry other than the `getPosts(undefined)` one untouched; in particular
every `getPostsByUserId` entry keeps its data. -/
theorem addReaction_no_invalidation (postId : Nat) (reactions : Reactions)
    (fulfilled : Bool) (c : Cache) :
    addReactionInvalidatesTags = ([] : List Tag) ∧
    markStale addReactionInvalidatesTags c = c ∧
    (∀ k : QueryKey, k ≠ getPostsKey →
      getData (addReactionOnQueryStarted postId reactions fulfilled c) k =
        getData c k) ∧
    (∀ uid : String,
      getData (addReactionOnQueryStarted postId reactions fulfilled c)
          { endpoint := "getPostsByUserId", argKey := uid } =
        getData c { endpoint := "getPostsByUserId", argKey := uid }) := by
  have hframe : ∀ k : QueryKey, k ≠ getPostsKey →
      getData (addReactionOnQueryStarted postId reactions fulfilled c) k =
        getData c k := by
    intro k hk
    simp only [addReactionOnQueryStarted, addReactionInFlight]
    cases fulfilled with
    | true => simpa using getData_updateQueryData_ne hk _ c
    | false =>
      cases horig : getData c getPostsKey with
      | none =>
        simp only [horig, Bool.false_eq_true, if_false, undoPatch]
        exact getData_updateQueryData_ne hk _ c
      | some d =>
        simp only [horig, Bool.false_eq_true, if_false, undoPatch, setData_eq_update]
        rw [getData_updateQueryData_ne hk, getData_updateQueryData_ne hk]
  refine ⟨rfl, markStale_empty c, hframe, ?_⟩
  intro uid
  apply hframe
  intro he
  have : "getPostsByUserId" = "getPosts" := congrArg QueryKey.endpoint he
  simp at this

/-- Witness for C10 at a concrete foreign key. -/
theorem addReaction_no_invalidation_witness :
    ({ endpoint := "getPostsByUserId", argKey := "2" } : QueryKey) ≠ getPostsKey ∧
    getData (addReactionOnQueryStarted 1 zeroReactions false [entryFx5])
        { endpoint := "getPostsByUserId", argKey := "2" } =
      getData [entryFx5] { endpoint := "getPostsByUserId", argKey := "2" } :=
  ⟨by decide,
    (addReaction_no_invalidation 1 zeroReactions false [entryFx5]).2.2.1
      { endpoint := "getPostsByUserId", argKey := "2" } (by decide)⟩

/-- C1: before the transport settles, the optimistic patch of `addReaction`
replaces the reactions of the post keyed by `postId` in the `getPosts` entry's
data (leaving `ids` and all other entities unchanged), and the speculative
value is immediately observable; if the call rejects, undo restores the
entry's data to exactly the retained pre-patch snapshot. -/
theorem addReaction_optimistic_update_and_rollback (postId : Nat)
    (reactions : Reactions) (c : Cache) (d : EntityState) (p : Post)
    (hdata : getData c getPostsKey = some d)
    (hpost : d.entities.lookup postId = some p) :
    getData (addReactionInFlight postId reactions c) getPostsKey =
      some (addReactionPatch postId reactions d) ∧
    (addReactionPatch postId reactions d).ids = d.ids ∧
    (addReactionPatch postId reactions d).entities.lookup postId =
      some { p with reactions := reactions } ∧
    (∀ q : Nat, q ≠ postId →
      (addReactionPatch postId reactions d).entities.lookup q =
        d.entities.lookup q) ∧
    getData (addReactionOnQueryStarted postId reactions false c) getPostsKey =
      getData c getPostsKey := by
  refine ⟨?_, ?_, ?_, ?_, ?_⟩
  · rw [addReactionInFlight, getData_updateQueryData, hdata]
    rfl
  · simp [addReactionPatch, hpost]
  · simp only [addReactionPatch, hpost]
    exact lookup_map_update_self _ _ _ _ hpost
  · intro q hq
    simp only [addReactionPatch, hpost]
    exact lookup_map_update_ne _ _ _ hq _
  · simp only [addReactionOnQueryStarted, addReactionInFlight, Bool.false_eq_true,
      if_false, hdata, undoPatch, setData_eq_update]
    rw [getData_updateQueryData, getData_updateQueryData, hdata]
    rfl

/-- Witness for C1 at a concrete cache, post and rejection. -/
theorem addReaction_optimistic_update_and_rollback_witness :
    getData cacheFx getPostsKey = some dataFx ∧
    dataFx.entities.lookup 1 = some postFx ∧
    getData (addReactionOnQueryStarted 1 ⟨2, 0, 0, 0, 0⟩ false cacheFx) getPostsKey =
      getData cacheFx getPostsKey :=
  ⟨rfl, rfl,
    (addReaction_optimistic_update_and_rollback 1 ⟨2, 0, 0, 0, 0⟩ cacheFx dataFx
      postFx rfl rfl).2.2.2.2⟩

/-- C2: for any accepted record list, the snapshot produced by `setAll` inside
`transformResponse` has duplicate-free `ids` matching exactly the keys of
`entities`, ordered by descending ISO-8601 `date` string, with equal dates kept
in original insertion order (the sort is stable). -/
theorem getPosts_normalization_invariant (iso : Int → String) (now : Int)
    (raws : List RawPost) (hnodup : (raws.map RawPost.id).Nodup) :
    (transformResponse iso now raws).ids.Nodup ∧
    (∀ i, i ∈ (transformResponse iso now raws).ids ↔
      i ∈ (transformResponse iso now raws).entities.map Prod.fst) ∧
    (postsInOrder (transformResponse iso now raws)).Pairwise
      (fun a b => b.date ≤ a.date) ∧
    (∀ dstr : String,
      (postsInOrder (transformResponse iso now raws)).filter
          (fun p => p.date = dstr) =
        (backfill iso now 1 raws).filter (fun p => p.date = dstr)) := by
  have hidm : (backfill iso now 1 raws).map Post.id = raws.map RawPost.id :=
    backfill_map_id iso now 1 raws
  have hnd : ((backfill iso now 1 raws).map Post.id).Nodup := by
    rw [hidm]; exact hnodup
  have hperm : List.Perm ((backfill iso now 1 raws).mergeSort sortComparerLE)
      (backfill iso now 1 raws) := List.mergeSort_perm _ _
  refine ⟨?_, ?_, ?_, ?_⟩
  · exact ((hperm.map Post.id).nodup_iff).mpr hnd
  · intro i
    show i ∈ ((backfill iso now 1 raws).mergeSort sortComparerLE).map Post.id ↔ _
    rw [(hperm.map Post.id).mem_iff]
    simp [transformResponse, setAll, List.map_map, Function.comp]
  · rw [show transformResponse iso now raws =
      setAll initialState (backfill iso now 1 raws) from rfl,
      postsInOrder_setAll _ hnd]
    exact (List.sorted_mergeSort sortComparerLE_trans sortComparerLE_total _).imp
      (fun h => by simpa [sortComparerLE] using h)
  · intro dstr
    rw [show transformResponse iso now raws =
      setAll initialState (backfill iso now 1 raws) from rfl,
      postsInOrder_setAll _ hnd]
    have hmemP : ∀ p ∈ (backfill iso now 1 raws).filter (fun p => p.date = dstr),
        (fun p : Post => decide (p.date = dstr)) p = true :=
      fun p hp => (List.mem_filter.mp hp).2
    have hLpair : ((backfill iso now 1 raws).filter
        (fun p => p.date = dstr)).Pairwise (fun a b => sortComparerLE a b = true) := by
      apply List.pairwise_of_forall_mem_list
      intro a ha b hb
      have hda : a.date = dstr := by simpa using (List.mem_filter.mp ha).2
      have hdb : b.date = dstr := by simpa using (List.mem_filter.mp hb).2
      simp [sortComparerLE, hda, hdb]
    have hsub : List.Sublist
        ((backfill iso now 1 raws).filter (fun p => p.date = dstr))
        ((backfill iso now 1 raws).mergeSort sortComparerLE) :=
      List.sublist_mergeSort sortComparerLE_trans sortComparerLE_total hLpair
        (List.filter_sublist _)
    have hfperm : List.Perm
        (((backfill iso now 1 raws).mergeSort sortComparerLE).filter
          (fun p => p.date = dstr))
        ((backfill iso now 1 raws).filter (fun p => p.date = dstr)) :=
      hperm.filter _
    have hself : ((backfill iso now 1 raws).filter
        (fun p => p.date = dstr)).filter (fun p => p.date = dstr) =
        (backfill iso now 1 raws).filter (fun p => p.date = dstr) :=
      List.filter_eq_self.mpr hmemP
    have hsub2 : List.Sublist
        ((backfill iso now 1 raws).filter (fun p => p.date = dstr))
        (((backfill iso now 1 raws).mergeSort sortComparerLE).filter
          (fun p => p.date = dstr)) := by
      have := hsub.filter (fun p => decide (p.date = dstr))
      rwa [hself] at this
    exact (hsub2.eq_of_length hfperm.length_eq.symm).symm

/-- Witness for C2 at a concrete response with duplicate-free ids. -/
theorem getPosts_normalization_invariant_witness :
    (rawsFx.map RawPost.id).Nodup ∧
    (transformResponse isoRender 0 rawsFx).ids.Nodup :=
  ⟨by decide, (getPosts_normalization_invariant isoRender 0 rawsFx (by decide)).1⟩

/-- C3: the shaping step assigns each record with a falsy `date` the rendering
of an instant one minute earlier per missing record (`min` starts at 1 and
counts only missing records), so the synthesized dates are strictly decreasing
in insertion order for any strictly monotone rendering; each record with an
absent `reactions` gets the five counters at zero; present fields are kept. -/
theorem shaping_backfill_defaults (iso : Int → String) (now : Int)
    (raws : List RawPost) (hmono : StrictMono iso) :
    (∀ (k : Nat) (raw : RawPost), raws[k]? = some raw →
      (backfill iso now 1 raws)[k]? = some
        { id := raw.id, userId := raw.userId, title := raw.title, body := raw.body,
          date := if dateMissing raw then
              iso (now - ((1 : Int) + (countMissing (List.take k raws) : Int)))
            else raw.date.getD "",
          reactions := raw.reactions.getD zeroReactions }) ∧
    synthesizedDates iso now raws =
      (List.range (countMissing raws)).map
        (fun i : Nat => iso (now - ((1 : Int) + (i : Int)))) ∧
    (synthesizedDates iso now raws).Pairwise (fun a b => b < a) := by
  refine ⟨?_, ?_, ?_⟩
  · intro k raw h
    have hh := backfill_getElem iso now 1 k raws raw h
    simpa using hh
  · have hz := backfill_zip_synth iso now 1 raws
    unfold synthesizedDates
    simpa using hz
  · unfold synthesizedDates
    have hz := backfill_zip_synth iso now 1 raws
    rw [hz, List.pairwise_map]
    refine (List.sorted_lt_range _).imp ?_
    intro i j hij
    exact hmono (by omega)

/-- Witness for C3: the concrete strictly monotone rendering applied to a
concrete response with two records missing dates. -/
theorem shaping_backfill_defaults_witness :
    StrictMono isoRender ∧
    synthesizedDates isoRender 0 rawsFx =
      (List.range (countMissing rawsFx)).map
        (fun i : Nat => isoRender (0 - ((1 : Int) + (i : Int)))) :=
  ⟨isoRender_strictMono,
    (shaping_backfill_defaults isoRender 0 rawsFx isoRender_strictMono).2.1⟩

end PostsApi
